import Mathlib

/-!
Shallow embedding of the fast-paytube bridge core (fast-core) and proofs
about it.

Source files embedded:
  * src/fast-core/src/base_types.rs  (Pubkey, ChainId, InteropTxId,
    CrossChainTransfer, shard_id, InteropTxId::generate)
  * src/fast-core/src/committee.rs   (Committee, weight, thresholds,
    get_strong_majority_lower_bound)
  * src/fast-core/src/message.rs     (orders, certificates,
    CrossChainSignatureAggregator::append,
    CertifiedCrossChainTransferOrder::check)
  * src/fast-core/src/authority.rs   (BridgeShardState,
    BridgeAuthorityState, handle_cross_chain_transfer_order,
    handle_cross_shard_update)

Modelling conventions:
  * Rust machine integers are `Nat`; overflow never matters on the paths
    modelled (weights are `usize` sums of committee weights, shard ids are
    small).
  * `[u8; 32]` / `[u8; 64]` byte arrays are `List Nat` of byte values.
  * `HashSet` is a duplicate-free `List` with membership-guarded insert;
    `HashMap` / `BTreeMap` are association lists with replace-on-insert.
  * Ed25519 signing and verification live in the external `ed25519_dalek`
    crate, so they are abstracted: verification is an arbitrary boolean
    function `sigOk` and the authority signing operation
    `Signature::new(transfer, secret)` is an arbitrary function
    `secretSign`.  `Signature::verify_batch` succeeds exactly when every
    individual pair verifies.
  * SHA-512 (external `sha2` crate) is abstracted as an arbitrary
    function `sha512 : List Nat → List Nat` on byte strings.
  * Error payload strings (`format!` diagnostics) are elided; the stale
    copy of error.rs in the snapshot lacks the `ShardStateNotFound`
    variant that authority.rs constructs, so the enum is modelled with
    the variants and payloads as constructed by the code.
  * Rust methods mutating `&mut self` become functions returning the new
    state paired with the `Result`.
-/

namespace FastPaytube

/-- A 32-byte Ed25519 public key, `Pubkey(pub [u8; 32])`. -/
structure Pubkey where
  bytes : List Nat
deriving DecidableEq

/-- Chain identifier, `ChainId(pub u16)`. -/
structure ChainId where
  val : Nat
deriving DecidableEq

/-- A 64-byte Ed25519 signature, `Signature(pub dalek::Signature)`. -/
structure Signature where
  bytes : List Nat
deriving DecidableEq

/-- Unique identifier for cross-chain transfers, `InteropTxId(pub [u8; 32])`. -/
structure InteropTxId where
  bytes : List Nat
deriving DecidableEq

/-- `pub type ShardId = u32`. -/
abbrev ShardId := Nat

/-- `pub type AuthorityName = Pubkey`. -/
abbrev AuthorityName := Pubkey

/-- The business payload `CrossChainTransfer` of base_types.rs. -/
structure CrossChainTransfer where
  source_chain : ChainId
  destination_chain : ChainId
  sender : Pubkey
  recipient : Pubkey
  amount : Nat
  token_mint : Pubkey
  interop_tx_id : InteropTxId
  escrow_account : Pubkey
  nonce : Nat
deriving DecidableEq

/-- `CrossChainTransfer::shard_id`: shard based on the first byte of the
sender address, `(bytes[0] as u32) % 16`. -/
def CrossChainTransfer.shard_id (t : CrossChainTransfer) : ShardId :=
  (t.sender.bytes.headD 0) % 16

/-- `FastPayError` variants relevant to the embedded code, with the
payloads the code actually constructs (diagnostic strings elided,
`ShardStateNotFound` carries its shard id as in authority.rs). -/
inductive FastPayError where
  | InvalidSignature : FastPayError
  | UnknownSigner : FastPayError
  | CertificateRequiresQuorum : FastPayError
  | CertificateAuthorityReuse : FastPayError
  | CertificateAlreadyExists : FastPayError
  | InvalidTransferAmount : FastPayError
  | WrongShard : FastPayError
  | ShardStateNotFound : ShardId → FastPayError
  | ConfigurationError : FastPayError
  | CommunicationError : FastPayError
deriving DecidableEq

/-- `CrossChainTransferOrder`: a transfer plus the sender signature. -/
structure CrossChainTransferOrder where
  transfer : CrossChainTransfer
  signature : Signature
deriving DecidableEq

/-- `SignedCrossChainTransferOrder`: an order countersigned by one authority. -/
structure SignedCrossChainTransferOrder where
  value : CrossChainTransferOrder
  authority : AuthorityName
  signature : Signature
deriving DecidableEq

/-- `CertifiedCrossChainTransferOrder`: the order with a list of
(authority, signature) pairs. -/
structure CertifiedCrossChainTransferOrder where
  value : CrossChainTransferOrder
  signatures : List (AuthorityName × Signature)
deriving DecidableEq

/-- `CrossShardCrossChainUpdate` of message.rs. -/
structure CrossShardCrossChainUpdate where
  shard_id : ShardId
  transfer_certificate : CertifiedCrossChainTransferOrder
deriving DecidableEq

/-! ### Committee (committee.rs) -/

/-- `Committee`: ordered mapping authority → weight.  The `total_votes`
field of the Rust struct is computed from `voting_rights` in
`Committee::new`, so it is modelled as a derived function. -/
structure Committee where
  voting_rights : List (AuthorityName × Nat)
deriving DecidableEq

instance {ε α : Type} [DecidableEq ε] [DecidableEq α] :
    DecidableEq (Except ε α) := fun x y =>
  match x, y with
  | .ok a, .ok b =>
    if h : a = b then isTrue (by rw [h]) else isFalse (by simp [h])
  | .error a, .error b =>
    if h : a = b then isTrue (by rw [h]) else isFalse (by simp [h])
  | .ok _, .error _ => isFalse (by simp)
  | .error _, .ok _ => isFalse (by simp)

/-- Association-list lookup (first match), modelling map lookup. -/
def alookup {α β : Type} [DecidableEq α] (k : α) : List (α × β) → Option β
  | [] => none
  | p :: rest => if p.1 = k then some p.2 else alookup k rest

/-- `Committee::weight`: `voting_rights.get(author).unwrap_or(&0)`. -/
def Committee.weight (c : Committee) (author : AuthorityName) : Nat :=
  (alookup author c.voting_rights).getD 0

/-- `Committee::total_votes`, the fold in `Committee::new`. -/
def Committee.total_votes (c : Committee) : Nat :=
  (c.voting_rights.map Prod.snd).sum

/-- `Committee::quorum_threshold`: `2 * total_votes / 3 + 1`. -/
def Committee.quorum_threshold (c : Committee) : Nat :=
  2 * c.total_votes / 3 + 1

/-- `Committee::validity_threshold`: `(total_votes + 2) / 3`. -/
def Committee.validity_threshold (c : Committee) : Nat :=
  (c.total_votes + 2) / 3

/-! ### Map / set helpers modelling HashSet and HashMap operations -/

/-- HashSet insert: add unless already present. -/
def setInsert {α : Type} [DecidableEq α] (a : α) (l : List α) : List α :=
  if a ∈ l then l else a :: l

/-- Overwrite the value stored at an existing key (models mutation through
`get_mut` / `HashMap::insert` on a present key). -/
def updateValue {α β : Type} [DecidableEq α] (k : α) (v : β)
    (l : List (α × β)) : List (α × β) :=
  l.map (fun p => if p.1 = k then (k, v) else p)

/-- HashMap insert: replace the entry when the key is present, else add it. -/
def mapInsert {α β : Type} [DecidableEq α] (k : α) (v : β)
    (l : List (α × β)) : List (α × β) :=
  if (alookup k l).isSome then updateValue k v l else (k, v) :: l

/-- HashMap remove. -/
def mapRemove {α β : Type} [DecidableEq α] (k : α)
    (l : List (α × β)) : List (α × β) :=
  l.filter (fun p => decide (p.1 ≠ k))

/-! ### Message layer (message.rs) -/

section Messages

/- Abstract Ed25519 verification: `sigOk t a s` models
`Signature::check(&self, t, a)` returning `Ok` (only `CrossChainTransfer`
values are ever signed in this code base). -/
variable (sigOk : CrossChainTransfer → Pubkey → Signature → Bool)

/-- `CrossChainTransferOrder::check_signature`:
`self.signature.check(&self.transfer, self.transfer.sender)`. -/
def CrossChainTransferOrder.check_signature
    (o : CrossChainTransferOrder) : Except FastPayError Unit :=
  if sigOk o.transfer o.transfer.sender o.signature then .ok ()
  else .error .InvalidSignature

/-- `Signature::verify_batch` over transfer `t`: succeeds exactly when
every (key, signature) pair verifies individually. -/
def verify_batch (t : CrossChainTransfer)
    (votes : List (Pubkey × Signature)) : Except FastPayError Unit :=
  if votes.all (fun p => sigOk t p.1 p.2) then .ok ()
  else .error .InvalidSignature

/-- The authority loop of `CertifiedCrossChainTransferOrder::check`:
walks the signature list, rejecting duplicate authorities and zero-weight
signers while accumulating committee weight. -/
def certWeightLoop (c : Committee) :
    List (AuthorityName × Signature) → List AuthorityName → Nat →
    Except FastPayError Nat
  | [], _, weight => .ok weight
  | (authority, _) :: rest, used_authorities, weight =>
    if authority ∈ used_authorities then .error .CertificateAuthorityReuse
    else
      if 0 < c.weight authority then
        certWeightLoop c rest (authority :: used_authorities)
          (weight + c.weight authority)
      else .error .UnknownSigner

/-- `CertifiedCrossChainTransferOrder::check`: the authority loop, then
the quorum test, then one signature batch over the inner sender signature
plus every authority signature. -/
def CertifiedCrossChainTransferOrder.check
    (cert : CertifiedCrossChainTransferOrder) (c : Committee) :
    Except FastPayError Unit :=
  match certWeightLoop c cert.signatures [] 0 with
  | .error e => .error e
  | .ok weight =>
    if c.quorum_threshold ≤ weight then
      verify_batch sigOk cert.value.transfer
        ((cert.value.transfer.sender, cert.value.signature) ::
          cert.signatures)
    else .error .CertificateRequiresQuorum

/-- `CrossChainSignatureAggregator` state (the `committee` reference is a
field; the Rust field holding the partial certificate is named
`partial`, a reserved word here). -/
structure CrossChainSignatureAggregator where
  committee : Committee
  weight : Nat
  used_authorities : List AuthorityName
  partialCert : CertifiedCrossChainTransferOrder
deriving DecidableEq

/-- `CrossChainSignatureAggregator::new_unsafe`. -/
def CrossChainSignatureAggregator.new_unsafe
    (value : CrossChainTransferOrder) (committee : Committee) :
    CrossChainSignatureAggregator :=
  { committee := committee
    weight := 0
    used_authorities := []
    partialCert := { value := value, signatures := [] } }

/-- `CrossChainSignatureAggregator::append`, returning the mutated
aggregator together with the Rust `Result`.  Mutations made before an
early return persist, exactly as through `&mut self`: in particular
`used_authorities.insert(authority)` happens before the voting-rights
test, so an `UnknownSigner` rejection leaves the authority recorded as
used. -/
def CrossChainSignatureAggregator.append
    (st : CrossChainSignatureAggregator) (authority : AuthorityName)
    (signature : Signature) :
    CrossChainSignatureAggregator ×
      Except FastPayError (Option CertifiedCrossChainTransferOrder) :=
  if ¬ sigOk st.partialCert.value.transfer authority signature then
    (st, .error .InvalidSignature)
  else if authority ∈ st.used_authorities then
    (st, .error .CertificateAuthorityReuse)
  else
    let st1 := { st with
      used_authorities := setInsert authority st.used_authorities }
    if 0 < st1.committee.weight authority then
      let st2 := { st1 with
        weight := st1.weight + st1.committee.weight authority
        partialCert := { st1.partialCert with
          signatures :=
            st1.partialCert.signatures ++ [(authority, signature)] } }
      if st2.committee.quorum_threshold ≤ st2.weight then
        (st2, .ok (some st2.partialCert))
      else
        (st2, .ok none)
    else
      (st1, .error .UnknownSigner)

end Messages

/-! ### Authority replica (authority.rs) -/

/-- Per-shard state `BridgeShardState`. -/
structure BridgeShardState where
  shard_id : ShardId
  processed_transfers : List InteropTxId
  pending_transfers : List (InteropTxId × CrossChainTransferOrder)
deriving DecidableEq

/-- `BridgeShardState::new`. -/
def BridgeShardState.new (shard_id : ShardId) : BridgeShardState :=
  { shard_id := shard_id
    processed_transfers := []
    pending_transfers := [] }

/-- `BridgeAuthorityState`.  The keypair field is modelled by the signing
function it induces (`secretSign t` is `Signature::new(&t, &self.secret)`),
the escrow-verifier trait object by a function returning the Rust
`Result<bool, FastPayError>`, and the cross-shard mpsc channel endpoint is
omitted (it carries no state read by the handlers). -/
structure BridgeAuthorityState where
  name : AuthorityName
  secretSign : CrossChainTransfer → Signature
  committee : Committee
  number_of_shards : Nat
  shard_states : List (ShardId × BridgeShardState)
  escrow_verifier : CrossChainTransfer → Except FastPayError Bool

/-- `BridgeAuthorityState::new`: creates shard states for ids
`0 .. number_of_shards - 1`. -/
def BridgeAuthorityState.new (name : AuthorityName)
    (secretSign : CrossChainTransfer → Signature) (committee : Committee)
    (number_of_shards : Nat)
    (escrow_verifier : CrossChainTransfer → Except FastPayError Bool) :
    BridgeAuthorityState :=
  { name := name
    secretSign := secretSign
    committee := committee
    number_of_shards := number_of_shards
    shard_states :=
      (List.range number_of_shards).map (fun i => (i, BridgeShardState.new i))
    escrow_verifier := escrow_verifier }

/-- `BridgeAuthorityState::get_shard_id`: `(sender.0[0] as u32) % 16`. -/
def BridgeAuthorityState.get_shard_id (_st : BridgeAuthorityState)
    (transfer : CrossChainTransfer) : ShardId :=
  (transfer.sender.bytes.headD 0) % 16

/-- `BridgeAuthorityState::in_shard`. -/
def BridgeAuthorityState.in_shard (st : BridgeAuthorityState)
    (transfer : CrossChainTransfer) (shard_id : ShardId) : Bool :=
  st.get_shard_id transfer = shard_id

section Authority

variable (sigOk : CrossChainTransfer → Pubkey → Signature → Bool)

/-- `BridgeAuthorityState::handle_cross_chain_transfer_order`, returning
the mutated state together with the Rust `Result`.  Note that a failing
escrow oracle propagates its own error through `?`, while an oracle
answer of `false` is mapped to `InvalidTransferAmount`. -/
def handle_cross_chain_transfer_order (st : BridgeAuthorityState)
    (order : CrossChainTransferOrder) (shard_id : ShardId) :
    BridgeAuthorityState × Except FastPayError SignedCrossChainTransferOrder :=
  if ¬ st.in_shard order.transfer shard_id then
    (st, .error .WrongShard)
  else
    match alookup shard_id st.shard_states with
    | none => (st, .error (.ShardStateNotFound shard_id))
    | some shard_state =>
      if ¬ sigOk order.transfer order.transfer.sender order.signature then
        (st, .error .InvalidSignature)
      else
        let interop_tx_id := order.transfer.interop_tx_id
        if interop_tx_id ∈ shard_state.processed_transfers then
          (st, .error .CertificateAlreadyExists)
        else
          match st.escrow_verifier order.transfer with
          | .error e => (st, .error e)
          | .ok false => (st, .error .InvalidTransferAmount)
          | .ok true =>
            let shard_state' := { shard_state with
              pending_transfers :=
                mapInsert interop_tx_id order shard_state.pending_transfers }
            ({ st with
                shard_states :=
                  updateValue shard_id shard_state' st.shard_states },
              .ok { value := order
                    authority := st.name
                    signature := st.secretSign order.transfer })

/-- `BridgeAuthorityState::handle_cross_shard_update`, returning the
mutated state together with the Rust `Result`. -/
def handle_cross_shard_update (st : BridgeAuthorityState)
    (update : CrossShardCrossChainUpdate) :
    BridgeAuthorityState × Except FastPayError Unit :=
  match alookup update.shard_id st.shard_states with
  | none => (st, .error (.ShardStateNotFound update.shard_id))
  | some shard_state =>
    match update.transfer_certificate.check sigOk st.committee with
    | .error e => (st, .error e)
    | .ok _ =>
      let interop_tx_id :=
        update.transfer_certificate.value.transfer.interop_tx_id
      let shard_state' := { shard_state with
        processed_transfers :=
          setInsert interop_tx_id shard_state.processed_transfers
        pending_transfers :=
          mapRemove interop_tx_id shard_state.pending_transfers }
      ({ st with
          shard_states :=
            updateValue update.shard_id shard_state' st.shard_states },
        .ok ())

/-- One externally driven operation on an authority state. -/
inductive Op where
  | order (o : CrossChainTransferOrder) (shard_id : ShardId) : Op
  | update (u : CrossShardCrossChainUpdate) : Op

/-- Apply one operation, keeping the resulting state (the Rust handlers
mutate `&mut self` and additionally return a `Result`). -/
def applyOp (st : BridgeAuthorityState) : Op → BridgeAuthorityState
  | .order o shard_id => (handle_cross_chain_transfer_order sigOk st o shard_id).1
  | .update u => (handle_cross_shard_update sigOk st u).1

/-- Run a sequence of operations. -/
def runOps (st : BridgeAuthorityState) (ops : List Op) : BridgeAuthorityState :=
  ops.foldl (applyOp sigOk) st

end Authority

/-! ### InteropTxId generation (base_types.rs) -/

/-- Little-endian byte encoding of `n` on `w` bytes (`to_le_bytes`). -/
def natToLEBytes (w : Nat) (n : Nat) : List Nat :=
  (List.range w).map (fun i => n / 256 ^ i % 256)

/-- The byte string fed to the SHA-512 hasher by `InteropTxId::generate`:
the sequence of `hasher.update` calls in source order (`u16` and `u64`
fields via `to_le_bytes`, 32-byte keys verbatim). -/
def interopHasherInput (source_chain destination_chain : ChainId)
    (sender recipient : Pubkey) (amount : Nat) (token_mint : Pubkey)
    (nonce : Nat) : List Nat :=
  natToLEBytes 2 source_chain.val ++ natToLEBytes 2 destination_chain.val ++
    sender.bytes ++ recipient.bytes ++ natToLEBytes 8 amount ++
    token_mint.bytes ++ natToLEBytes 8 nonce

/-- `InteropTxId::generate`, parameterized by the external SHA-512
function: hash the accumulated input and keep the leading 32 bytes. -/
def InteropTxId.generate (sha512 : List Nat → List Nat)
    (source_chain destination_chain : ChainId) (sender recipient : Pubkey)
    (amount : Nat) (token_mint : Pubkey) (nonce : Nat) : InteropTxId :=
  { bytes :=
      (sha512 (interopHasherInput source_chain destination_chain sender
        recipient amount token_mint nonce)).take 32 }

/-- Spec-side formula for the interop id: the leading 32 bytes of SHA-512
over the concatenation
`source_chain || dest_chain || sender || recipient || amount || token_mint || nonce`
with every integer in little-endian. -/
def interopTxIdSpec (sha512 : List Nat → List Nat)
    (source_chain destination_chain : ChainId) (sender recipient : Pubkey)
    (amount : Nat) (token_mint : Pubkey) (nonce : Nat) : InteropTxId :=
  { bytes :=
      (sha512 (natToLEBytes 2 source_chain.val ++
        natToLEBytes 2 destination_chain.val ++ sender.bytes ++
        recipient.bytes ++ natToLEBytes 8 amount ++ token_mint.bytes ++
        natToLEBytes 8 nonce)).take 32 }

/-! ### Strong-majority lower bound (committee.rs) -/

/-- Descending comparison on the vote value, the order produced by
`values.sort_by(|(_, x), (_, y)| V::cmp(y, x))`. -/
def byValDesc {V : Type} [LinearOrder V] :
    (AuthorityName × V) → (AuthorityName × V) → Prop :=
  fun x y => y.2 ≤ x.2

instance {V : Type} [LinearOrder V] :
    DecidableRel (byValDesc (V := V)) :=
  fun x y => inferInstanceAs (Decidable (y.2 ≤ x.2))

instance {V : Type} [LinearOrder V] :
    IsTotal (AuthorityName × V) (byValDesc (V := V)) :=
  ⟨fun a b => le_total b.2 a.2⟩

instance {V : Type} [LinearOrder V] :
    IsTrans (AuthorityName × V) (byValDesc (V := V)) :=
  ⟨fun _ _ _ h1 h2 => le_trans h2 h1⟩

/-- The accumulation loop of `get_strong_majority_lower_bound`: browse
values (already sorted by decreasing value), adding each authority's
weight to the score, and return the value at which the score reaches the
quorum threshold, else the `Default` value. -/
def strongMajorityScan {V : Type} [Inhabited V] (c : Committee) :
    Nat → List (AuthorityName × V) → V
  | _, [] => default
  | score, (name, value) :: rest =>
    if c.quorum_threshold ≤ score + c.weight name then value
    else strongMajorityScan c (score + c.weight name) rest

/-- `Committee::get_strong_majority_lower_bound`: sort by decreasing
value (a stable sort, here insertion sort) and scan. -/
def Committee.get_strong_majority_lower_bound {V : Type} [LinearOrder V]
    [Inhabited V] (c : Committee) (values : List (AuthorityName × V)) : V :=
  strongMajorityScan c 0 (List.insertionSort byValDesc values)

/-- The committee weight supporting value `v`: the summed weight of the
authorities casting a value at least `v`. -/
def supportWeight {V : Type} [LinearOrder V] (c : Committee)
    (values : List (AuthorityName × V)) (v : V) : Nat :=
  ((values.filter (fun p => decide (v ≤ p.2))).map
    (fun p => c.weight p.1)).sum

/-- Whether an operation is a cross-shard update aimed at shard `sh`
that carries a certificate, valid for committee `c`, whose transfer has
interop id `τ` (such an update, and only such, marks `τ` processed on
shard `sh`). -/
def certifiesUpdate (sigOk : CrossChainTransfer → Pubkey → Signature → Bool)
    (c : Committee) (sh : ShardId) (τ : InteropTxId) : Op → Bool
  | .order _ _ => false
  | .update u =>
    decide (u.shard_id = sh) &&
      decide (u.transfer_certificate.value.transfer.interop_tx_id = τ) &&
      (match u.transfer_certificate.check sigOk c with
        | .ok _ => true
        | .error _ => false)

/-- The per-shard invariants of the spec: no interop id is both processed
and a pending key, and every pending order maps to the shard holding it
under the shard function. -/
def shardsInvariant (st : BridgeAuthorityState) : Prop :=
  ∀ sh s, alookup sh st.shard_states = some s →
    (∀ τ ∈ s.processed_transfers, ∀ p ∈ s.pending_transfers, p.1 ≠ τ) ∧
    (∀ p ∈ s.pending_transfers, p.2.transfer.shard_id = sh)

/-! ### Helper lemmas on the map / set models -/

theorem alookup_append {α β : Type} [DecidableEq α] (k : α)
    (l1 l2 : List (α × β)) :
    alookup k (l1 ++ l2) =
      match alookup k l1 with
      | some v => some v
      | none => alookup k l2 := by
  induction l1 with
  | nil => simp [alookup]
  | cons p rest ih => by_cases h : p.1 = k <;> simp [alookup, h, ih]

theorem alookup_rangeMap {β : Type} (f : Nat → β) (n k : Nat) :
    alookup k ((List.range n).map fun i => (i, f i)) =
      if k < n then some (f k) else none := by
  induction n with
  | zero => simp [alookup]
  | succ n ih =>
    rw [List.range_succ, List.map_append, alookup_append, ih]
    by_cases h1 : k < n
    · simp [h1, Nat.lt_succ_of_lt h1]
    · by_cases h2 : k = n
      · subst h2
        simp [alookup, Nat.lt_succ_self]
      · have h3 : ¬ k < n + 1 := by omega
        have h4 : ¬ n = k := fun h => h2 h.symm
        simp [alookup, h1, h3, h4]

theorem alookup_eq_none_iff {α β : Type} [DecidableEq α] {k : α}
    {l : List (α × β)} :
    alookup k l = none ↔ ∀ p ∈ l, p.1 ≠ k := by
  induction l with
  | nil => simp [alookup]
  | cons p rest ih => by_cases h : p.1 = k <;> simp [alookup, h, ih]

theorem alookup_updateValue {α β : Type} [DecidableEq α] (k k' : α) (v : β)
    (l : List (α × β)) :
    alookup k' (updateValue k v l) =
      if k' = k then (alookup k l).map (fun _ => v) else alookup k' l := by
  induction l with
  | nil => by_cases h : k' = k <;> simp [alookup, updateValue, h]
  | cons p rest ih =>
    simp only [updateValue, List.map_cons] at ih ⊢
    by_cases h1 : p.1 = k
    · by_cases h2 : k' = k
      · subst h2
        simp [alookup, h1, ih]
      · have h2' : ¬ k = k' := fun h => h2 h.symm
        simp [alookup, h1, h2, h2', ih]
    · by_cases h2 : k' = k
      · subst h2
        simp [alookup, h1, ih]
      · by_cases h3 : p.1 = k'
        · simp [alookup, h1, h2, h3]
        · simp [alookup, h1, h2, h3, ih]

theorem mem_updateValue {α β : Type} [DecidableEq α] {p : α × β} {k : α}
    {v : β} {l : List (α × β)} :
    p ∈ updateValue k v l → p = (k, v) ∨ (p ∈ l ∧ p.1 ≠ k) := by
  intro hp
  rcases List.mem_map.1 hp with ⟨q, hq, he⟩
  by_cases h : q.1 = k
  · left
    simp [h] at he
    exact he.symm
  · right
    simp [h] at he
    subst he
    exact ⟨hq, h⟩

theorem mem_mapInsert {α β : Type} [DecidableEq α] {p : α × β} {k : α}
    {v : β} {l : List (α × β)} :
    p ∈ mapInsert k v l → p = (k, v) ∨ (p ∈ l ∧ p.1 ≠ k) := by
  unfold mapInsert
  by_cases h : (alookup k l).isSome
  · simp only [h, if_pos]
    exact mem_updateValue
  · simp only [h, if_neg, Bool.not_eq_true]
    intro hp
    rcases List.mem_cons.1 hp with he | hm
    · exact Or.inl he
    · refine Or.inr ⟨hm, ?_⟩
      have hnone : alookup k l = none := by
        cases hh : alookup k l with
        | none => rfl
        | some w => rw [hh] at h; simp at h
      exact alookup_eq_none_iff.1 hnone p hm

theorem mem_setInsert {α : Type} [DecidableEq α] {a b : α} {l : List α} :
    b ∈ setInsert a l ↔ b = a ∨ b ∈ l := by
  unfold setInsert
  by_cases h : a ∈ l
  · simp only [h, if_pos]
    constructor
    · exact fun hb => Or.inr hb
    · rintro (rfl | hb)
      · exact h
      · exact hb
  · simp [h]

theorem mem_setInsert_self {α : Type} [DecidableEq α] (a : α) (l : List α) :
    a ∈ setInsert a l :=
  mem_setInsert.2 (Or.inl rfl)

theorem setInsert_of_mem {α : Type} [DecidableEq α] {a : α} {l : List α}
    (h : a ∈ l) : setInsert a l = l := by
  simp [setInsert, h]

theorem mem_mapRemove {α β : Type} [DecidableEq α] {p : α × β} {k : α}
    {l : List (α × β)} :
    p ∈ mapRemove k l ↔ p ∈ l ∧ p.1 ≠ k := by
  simp [mapRemove]

theorem mapRemove_cons {α β : Type} [DecidableEq α] (k : α) (p : α × β)
    (l : List (α × β)) :
    mapRemove k (p :: l) =
      if p.1 = k then mapRemove k l else p :: mapRemove k l := by
  by_cases h : p.1 = k <;> simp [mapRemove, h]

theorem mapRemove_idem {α β : Type} [DecidableEq α] (k : α)
    (l : List (α × β)) :
    mapRemove k (mapRemove k l) = mapRemove k l := by
  induction l with
  | nil => rfl
  | cons p rest ih =>
    rw [mapRemove_cons]
    by_cases h : p.1 = k
    · rw [if_pos h, ih]
    · rw [if_neg h, mapRemove_cons, if_neg h, ih]

theorem updateValue_idem {α β : Type} [DecidableEq α] (k : α) (v : β)
    (l : List (α × β)) :
    updateValue k v (updateValue k v l) = updateValue k v l := by
  induction l with
  | nil => rfl
  | cons p rest ih =>
    simp only [updateValue, List.map_cons] at ih ⊢
    by_cases h : p.1 = k <;> simp [h, ih]

/-! ### Claim theorems -/

/-- C8: for every transfer the shard function returns the first byte of
the sender address modulo 16, and `CrossChainTransfer::shard_id` and
`BridgeAuthorityState::get_shard_id` agree on this value for every
transfer and every authority state, so each transfer belongs to exactly
one shard. -/
theorem shard_function_agrees (t : CrossChainTransfer)
    (st : BridgeAuthorityState) :
    t.shard_id = t.sender.bytes.headD 0 % 16 ∧
      st.get_shard_id t = t.shard_id :=
  ⟨rfl, rfl⟩

/-- C7: `InteropTxId::generate` is a pure function equal to the leading
32 bytes of SHA-512 over the concatenation
source_chain || dest_chain || sender || recipient || amount || token_mint || nonce
with integers little-endian, and two inputs whose hashes differ on those
leading bytes yield different ids. -/
theorem interop_tx_id_generate_spec (sha512 : List Nat → List Nat)
    (sc dc : ChainId) (snd rcp : Pubkey) (amt : Nat) (tm : Pubkey)
    (nonce : Nat) :
    InteropTxId.generate sha512 sc dc snd rcp amt tm nonce =
        interopTxIdSpec sha512 sc dc snd rcp amt tm nonce ∧
      ∀ sc2 dc2 snd2 rcp2 amt2 tm2 nonce2,
        (sha512 (interopHasherInput sc dc snd rcp amt tm nonce)).take 32 ≠
          (sha512 (interopHasherInput sc2 dc2 snd2 rcp2 amt2 tm2
            nonce2)).take 32 →
        InteropTxId.generate sha512 sc dc snd rcp amt tm nonce ≠
          InteropTxId.generate sha512 sc2 dc2 snd2 rcp2 amt2 tm2 nonce2 := by
  refine ⟨rfl, ?_⟩
  intro sc2 dc2 snd2 rcp2 amt2 tm2 nonce2 hneq heq
  exact hneq (congrArg InteropTxId.bytes heq)

/-- Witness for C7: with the identity in place of SHA-512 (any function
is admissible for the abstract hash), two inputs differing in the source
chain produce different ids. -/
theorem interop_tx_id_generate_spec_witness :
    InteropTxId.generate (fun l => l) ⟨0⟩ ⟨0⟩ ⟨List.replicate 32 0⟩
        ⟨List.replicate 32 0⟩ 0 ⟨List.replicate 32 0⟩ 0 ≠
      InteropTxId.generate (fun l => l) ⟨1⟩ ⟨0⟩ ⟨List.replicate 32 0⟩
        ⟨List.replicate 32 0⟩ 0 ⟨List.replicate 32 0⟩ 0 :=
  (interop_tx_id_generate_spec (fun l => l) ⟨0⟩ ⟨0⟩ ⟨List.replicate 32 0⟩
    ⟨List.replicate 32 0⟩ 0 ⟨List.replicate 32 0⟩ 0).2 ⟨1⟩ ⟨0⟩
    ⟨List.replicate 32 0⟩ ⟨List.replicate 32 0⟩ 0 ⟨List.replicate 32 0⟩ 0
    (by decide)

/-- C6: applying the same `CrossShardCrossChainUpdate` twice in
succession yields exactly the same authority state as applying it once. -/
theorem cross_shard_update_idempotent
    (sigOk : CrossChainTransfer → Pubkey → Signature → Bool)
    (st : BridgeAuthorityState) (u : CrossShardCrossChainUpdate) :
    (handle_cross_shard_update sigOk
        (handle_cross_shard_update sigOk st u).1 u).1 =
      (handle_cross_shard_update sigOk st u).1 := by
  cases hl : alookup u.shard_id st.shard_states with
  | none => simp [handle_cross_shard_update, hl]
  | some s =>
    cases hc : CertifiedCrossChainTransferOrder.check sigOk
        u.transfer_certificate st.committee with
    | error e => simp [handle_cross_shard_update, hl, hc]
    | ok v =>
      simp [handle_cross_shard_update, hl, hc, alookup_updateValue,
        setInsert_of_mem (mem_setInsert_self _ _), mapRemove_idem,
        updateValue_idem]

/-- The authority loop of certificate check succeeds exactly by scanning
pairwise-new, positive-weight authorities; on success it reports the
accumulated weight. -/
theorem certWeightLoop_ok {c : Committee} :
    ∀ (sigs : List (AuthorityName × Signature)) (used : List AuthorityName)
      (w W : Nat), certWeightLoop c sigs used w = .ok W →
      (sigs.map Prod.fst).Nodup ∧
        (∀ a ∈ sigs.map Prod.fst, a ∉ used ∧ 0 < c.weight a) ∧
        W = w + (sigs.map (fun p => c.weight p.1)).sum := by
  intro sigs
  induction sigs with
  | nil =>
    intro used w W h
    simp [certWeightLoop] at h
    simp [h]
  | cons p rest ih =>
    intro used w W h
    obtain ⟨authority, sig⟩ := p
    simp only [certWeightLoop] at h
    by_cases h1 : authority ∈ used
    · simp [h1] at h
    · simp only [if_neg h1] at h
      by_cases h2 : 0 < c.weight authority
      · simp only [if_pos h2] at h
        obtain ⟨hnd, hmem, hW⟩ := ih (authority :: used) _ _ h
        refine ⟨?_, ?_, ?_⟩
        · rw [List.map_cons, List.nodup_cons]
          refine ⟨fun hmem2 => (hmem authority hmem2).1 (List.mem_cons_self _ _), hnd⟩
        · intro a ha
          rcases List.mem_cons.1 ha with rfl | ha2
          · exact ⟨h1, h2⟩
          · obtain ⟨hnu, hpos⟩ := hmem a ha2
            exact ⟨fun hu => hnu (List.mem_cons_of_mem _ hu), hpos⟩
        · rw [List.map_cons, List.sum_cons]
          dsimp only
          omega
      · simp [h2] at h

/-- Converse of the loop analysis: over distinct fresh positive-weight
authorities the loop succeeds with the summed weight. -/
theorem certWeightLoop_ok_of {c : Committee} :
    ∀ (sigs : List (AuthorityName × Signature)) (used : List AuthorityName)
      (w : Nat), (sigs.map Prod.fst).Nodup →
      (∀ a ∈ sigs.map Prod.fst, a ∉ used ∧ 0 < c.weight a) →
      certWeightLoop c sigs used w =
        .ok (w + (sigs.map (fun p => c.weight p.1)).sum) := by
  intro sigs
  induction sigs with
  | nil =>
    intro used w _ _
    simp [certWeightLoop]
  | cons p rest ih =>
    intro used w hnd hmem
    obtain ⟨authority, sig⟩ := p
    have h1 : authority ∉ used :=
      (hmem authority (by simp)).1
    have h2 : 0 < c.weight authority :=
      (hmem authority (by simp)).2
    simp only [certWeightLoop, if_neg h1, if_pos h2]
    rw [List.map_cons, List.nodup_cons] at hnd
    have := ih (authority :: used) (w + c.weight authority) hnd.2 ?_
    · rw [this, List.map_cons, List.sum_cons]
      congr 1
      dsimp only
      omega
    · intro a ha
      obtain ⟨hnu, hpos⟩ := hmem a (List.mem_cons_of_mem _ ha)
      refine ⟨?_, hpos⟩
      intro hu
      rcases List.mem_cons.1 hu with rfl | hu2
      · exact hnd.1 ha
      · exact hnu hu2

/-- C1: a certificate passing `check` has pairwise-distinct authorities,
every one a positive-weight committee member, with weight sum at least
the quorum threshold; and a certificate of distinct positive-weight
authorities whose weight sum is quorum − 1 is rejected with
`CertificateRequiresQuorum`. -/
theorem certificate_check_quorum
    (sigOk : CrossChainTransfer → Pubkey → Signature → Bool)
    (c : Committee) (cert : CertifiedCrossChainTransferOrder) :
    (cert.check sigOk c = .ok () →
      (cert.signatures.map Prod.fst).Nodup ∧
        (∀ a ∈ cert.signatures.map Prod.fst, 0 < c.weight a) ∧
        c.quorum_threshold ≤
          (cert.signatures.map (fun p => c.weight p.1)).sum) ∧
    ((cert.signatures.map Prod.fst).Nodup →
      (∀ a ∈ cert.signatures.map Prod.fst, 0 < c.weight a) →
      (cert.signatures.map (fun p => c.weight p.1)).sum =
        c.quorum_threshold - 1 →
      cert.check sigOk c = .error .CertificateRequiresQuorum) := by
  constructor
  · intro h
    cases hloop : certWeightLoop c cert.signatures [] 0 with
    | error e =>
      simp only [CertifiedCrossChainTransferOrder.check, hloop] at h
      exact absurd h (by simp)
    | ok W =>
      simp only [CertifiedCrossChainTransferOrder.check, hloop] at h
      obtain ⟨hnd, hmem, hW⟩ := certWeightLoop_ok cert.signatures [] 0 W hloop
      by_cases hq : c.quorum_threshold ≤ W
      · exact ⟨hnd, fun a ha => (hmem a ha).2, by omega⟩
      · rw [if_neg hq] at h
        exact absurd h (by simp)
  · intro hnd hpos hsum
    have hloop := certWeightLoop_ok_of (c := c) cert.signatures [] 0 hnd
      (fun a ha => ⟨by simp, hpos a ha⟩)
    have hq1 : 1 ≤ c.quorum_threshold := Nat.le_add_left 1 _
    have hlt : ¬ c.quorum_threshold ≤
        0 + (cert.signatures.map (fun p => c.weight p.1)).sum := by
      omega
    simp only [CertifiedCrossChainTransferOrder.check, hloop, if_neg hlt]

/-- Witness for C1: with a three-member unit-weight committee (quorum 3),
a two-signature certificate (weight 2 = quorum − 1) is rejected with
`CertificateRequiresQuorum`. -/
theorem certificate_check_quorum_witness :
    CertifiedCrossChainTransferOrder.check (fun _ _ _ => true)
        { value :=
            { transfer :=
                { source_chain := ⟨0⟩, destination_chain := ⟨0⟩
                  sender := ⟨[0]⟩, recipient := ⟨[0]⟩, amount := 0
                  token_mint := ⟨[0]⟩, interop_tx_id := ⟨[0]⟩
                  escrow_account := ⟨[0]⟩, nonce := 0 }
              signature := ⟨[]⟩ }
          signatures := [(⟨[1]⟩, ⟨[]⟩), (⟨[2]⟩, ⟨[]⟩)] }
        ⟨[(⟨[1]⟩, 1), (⟨[2]⟩, 1), (⟨[3]⟩, 1)]⟩ =
      .error .CertificateRequiresQuorum :=
  (certificate_check_quorum (fun _ _ _ => true)
    ⟨[(⟨[1]⟩, 1), (⟨[2]⟩, 1), (⟨[3]⟩, 1)]⟩ _).2
    (by decide) (by decide) (by decide)

section HandlerLemmas

variable (sigOk : CrossChainTransfer → Pubkey → Signature → Bool)
variable (st : BridgeAuthorityState) (order : CrossChainTransferOrder)
variable (shard_id : ShardId)

theorem handleOrder_wrong_shard
    (h : ¬ st.in_shard order.transfer shard_id = true) :
    handle_cross_chain_transfer_order sigOk st order shard_id =
      (st, .error .WrongShard) := by
  simp [handle_cross_chain_transfer_order, h]

theorem handleOrder_no_shard_state
    (h1 : st.in_shard order.transfer shard_id = true)
    (h2 : alookup shard_id st.shard_states = none) :
    handle_cross_chain_transfer_order sigOk st order shard_id =
      (st, .error (.ShardStateNotFound shard_id)) := by
  simp [handle_cross_chain_transfer_order, h1, h2]

theorem handleOrder_bad_sig {s : BridgeShardState}
    (h1 : st.in_shard order.transfer shard_id = true)
    (h2 : alookup shard_id st.shard_states = some s)
    (h3 : ¬ sigOk order.transfer order.transfer.sender order.signature = true) :
    handle_cross_chain_transfer_order sigOk st order shard_id =
      (st, .error .InvalidSignature) := by
  simp [handle_cross_chain_transfer_order, h1, h2, h3]

theorem handleOrder_already_processed {s : BridgeShardState}
    (h1 : st.in_shard order.transfer shard_id = true)
    (h2 : alookup shard_id st.shard_states = some s)
    (h3 : sigOk order.transfer order.transfer.sender order.signature = true)
    (h4 : order.transfer.interop_tx_id ∈ s.processed_transfers) :
    handle_cross_chain_transfer_order sigOk st order shard_id =
      (st, .error .CertificateAlreadyExists) := by
  simp [handle_cross_chain_transfer_order, h1, h2, h3, h4]

theorem handleOrder_oracle_error {s : BridgeShardState} {e : FastPayError}
    (h1 : st.in_shard order.transfer shard_id = true)
    (h2 : alookup shard_id st.shard_states = some s)
    (h3 : sigOk order.transfer order.transfer.sender order.signature = true)
    (h4 : order.transfer.interop_tx_id ∉ s.processed_transfers)
    (h5 : st.escrow_verifier order.transfer = .error e) :
    handle_cross_chain_transfer_order sigOk st order shard_id =
      (st, .error e) := by
  simp [handle_cross_chain_transfer_order, h1, h2, h3, h4, h5]

theorem handleOrder_oracle_false {s : BridgeShardState}
    (h1 : st.in_shard order.transfer shard_id = true)
    (h2 : alookup shard_id st.shard_states = some s)
    (h3 : sigOk order.transfer order.transfer.sender order.signature = true)
    (h4 : order.transfer.interop_tx_id ∉ s.processed_transfers)
    (h5 : st.escrow_verifier order.transfer = .ok false) :
    handle_cross_chain_transfer_order sigOk st order shard_id =
      (st, .error .InvalidTransferAmount) := by
  simp [handle_cross_chain_transfer_order, h1, h2, h3, h4, h5]

theorem handleOrder_success {s : BridgeShardState}
    (h1 : st.in_shard order.transfer shard_id = true)
    (h2 : alookup shard_id st.shard_states = some s)
    (h3 : sigOk order.transfer order.transfer.sender order.signature = true)
    (h4 : order.transfer.interop_tx_id ∉ s.processed_transfers)
    (h5 : st.escrow_verifier order.transfer = .ok true) :
    handle_cross_chain_transfer_order sigOk st order shard_id =
      ({ st with
          shard_states := updateValue shard_id
            { s with
                pending_transfers := mapInsert order.transfer.interop_tx_id
                  order s.pending_transfers }
            st.shard_states },
        .ok { value := order
              authority := st.name
              signature := st.secretSign order.transfer }) := by
  simp [handle_cross_chain_transfer_order, h1, h2, h3, h4, h5]

theorem handleUpdate_no_shard_state {u : CrossShardCrossChainUpdate}
    (h : alookup u.shard_id st.shard_states = none) :
    handle_cross_shard_update sigOk st u =
      (st, .error (.ShardStateNotFound u.shard_id)) := by
  simp [handle_cross_shard_update, h]

theorem handleUpdate_cert_error {u : CrossShardCrossChainUpdate}
    {s : BridgeShardState} {e : FastPayError}
    (h1 : alookup u.shard_id st.shard_states = some s)
    (h2 : u.transfer_certificate.check sigOk st.committee = .error e) :
    handle_cross_shard_update sigOk st u = (st, .error e) := by
  simp [handle_cross_shard_update, h1, h2]

theorem handleUpdate_success {u : CrossShardCrossChainUpdate}
    {s : BridgeShardState}
    (h1 : alookup u.shard_id st.shard_states = some s)
    (h2 : u.transfer_certificate.check sigOk st.committee = .ok ()) :
    handle_cross_shard_update sigOk st u =
      ({ st with
          shard_states := updateValue u.shard_id
            { s with
                processed_transfers := setInsert
                  u.transfer_certificate.value.transfer.interop_tx_id
                  s.processed_transfers
                pending_transfers := mapRemove
                  u.transfer_certificate.value.transfer.interop_tx_id
                  s.pending_transfers }
            st.shard_states },
        .ok ()) := by
  simp [handle_cross_shard_update, h1, h2]

theorem alookup_updateValue_none {α β : Type} [DecidableEq α] {k' k : α}
    {v : β} {l : List (α × β)} (h : alookup k' l = none) :
    alookup k' (updateValue k v l) = none := by
  rw [alookup_updateValue]
  by_cases he : k' = k
  · subst he
    rw [h]
    simp
  · rw [if_neg he]
    exact h

/-- The order handler either leaves the state intact (any rejection) or
overwrites the target shard state with the pending map extended by the
order. -/
theorem handleOrder_state_cases (sigOk : CrossChainTransfer → Pubkey → Signature → Bool)
    (st : BridgeAuthorityState) (order : CrossChainTransferOrder)
    (sid : ShardId) :
    (handle_cross_chain_transfer_order sigOk st order sid).1 = st ∨
      ∃ s0, alookup sid st.shard_states = some s0 ∧
        (handle_cross_chain_transfer_order sigOk st order sid).1 =
          { st with
              shard_states := updateValue sid
                { s0 with
                    pending_transfers := mapInsert
                      order.transfer.interop_tx_id order
                      s0.pending_transfers }
                st.shard_states } := by
  by_cases h1 : st.in_shard order.transfer sid = true
  · cases h2 : alookup sid st.shard_states with
    | none =>
      rw [handleOrder_no_shard_state sigOk st order sid h1 h2]
      exact Or.inl rfl
    | some s =>
      by_cases h3 : sigOk order.transfer order.transfer.sender
          order.signature = true
      · by_cases h4 : order.transfer.interop_tx_id ∈ s.processed_transfers
        · rw [handleOrder_already_processed sigOk st order sid h1 h2 h3 h4]
          exact Or.inl rfl
        · cases h5 : st.escrow_verifier order.transfer with
          | error e =>
            rw [handleOrder_oracle_error sigOk st order sid h1 h2 h3 h4 h5]
            exact Or.inl rfl
          | ok b =>
            cases b with
            | false =>
              rw [handleOrder_oracle_false sigOk st order sid h1 h2 h3 h4 h5]
              exact Or.inl rfl
            | true =>
              rw [handleOrder_success sigOk st order sid h1 h2 h3 h4 h5]
              exact Or.inr ⟨s, rfl, rfl⟩
      · rw [handleOrder_bad_sig sigOk st order sid h1 h2 h3]
        exact Or.inl rfl
  · rw [handleOrder_wrong_shard sigOk st order sid h1]
    exact Or.inl rfl

/-- The update handler either leaves the state intact or (certificate
valid, shard present) marks the id processed and clears it from
pending. -/
theorem handleUpdate_state_cases (sigOk : CrossChainTransfer → Pubkey → Signature → Bool)
    (st : BridgeAuthorityState) (u : CrossShardCrossChainUpdate) :
    (handle_cross_shard_update sigOk st u).1 = st ∨
      ∃ s0, alookup u.shard_id st.shard_states = some s0 ∧
        u.transfer_certificate.check sigOk st.committee = .ok () ∧
        (handle_cross_shard_update sigOk st u).1 =
          { st with
              shard_states := updateValue u.shard_id
                { s0 with
                    processed_transfers := setInsert
                      u.transfer_certificate.value.transfer.interop_tx_id
                      s0.processed_transfers
                    pending_transfers := mapRemove
                      u.transfer_certificate.value.transfer.interop_tx_id
                      s0.pending_transfers }
                st.shard_states } := by
  cases h1 : alookup u.shard_id st.shard_states with
  | none =>
    rw [handleUpdate_no_shard_state sigOk st h1]
    exact Or.inl rfl
  | some s =>
    cases h2 : u.transfer_certificate.check sigOk st.committee with
    | error e =>
      rw [handleUpdate_cert_error sigOk st h1 h2]
      exact Or.inl rfl
    | ok v =>
      cases v
      rw [handleUpdate_success sigOk st h1 h2]
      exact Or.inr ⟨s, rfl, rfl, rfl⟩

/-- Any single operation leaves the state intact or overwrites one
existing shard state. -/
theorem applyOp_state_cases (sigOk : CrossChainTransfer → Pubkey → Signature → Bool)
    (st : BridgeAuthorityState) (op : Op) :
    applyOp sigOk st op = st ∨
      ∃ k s', applyOp sigOk st op =
        { st with shard_states := updateValue k s' st.shard_states } := by
  cases op with
  | order o sid =>
    rcases handleOrder_state_cases sigOk st o sid with h | ⟨s0, _, h⟩
    · exact Or.inl h
    · exact Or.inr ⟨sid, _, h⟩
  | update u =>
    rcases handleUpdate_state_cases sigOk st u with h | ⟨s0, _, _, h⟩
    · exact Or.inl h
    · exact Or.inr ⟨u.shard_id, _, h⟩

theorem applyOp_committee (sigOk : CrossChainTransfer → Pubkey → Signature → Bool)
    (st : BridgeAuthorityState) (op : Op) :
    (applyOp sigOk st op).committee = st.committee := by
  rcases applyOp_state_cases sigOk st op with h | ⟨k, s', h⟩
  · rw [h]
  · rw [h]

/-- Success inversion for the order handler: an `Ok` answer pins down
every guard and the returned signed order. -/
theorem handleOrder_ok_inversion (sigOk : CrossChainTransfer → Pubkey → Signature → Bool)
    (st : BridgeAuthorityState) (order : CrossChainTransferOrder)
    (sid : ShardId) {signed : SignedCrossChainTransferOrder}
    (h : (handle_cross_chain_transfer_order sigOk st order sid).2 = .ok signed) :
    st.in_shard order.transfer sid = true ∧
      sigOk order.transfer order.transfer.sender order.signature = true ∧
      st.escrow_verifier order.transfer = .ok true ∧
      signed = { value := order
                 authority := st.name
                 signature := st.secretSign order.transfer } ∧
      ∃ s, alookup sid st.shard_states = some s ∧
        order.transfer.interop_tx_id ∉ s.processed_transfers := by
  by_cases h1 : st.in_shard order.transfer sid = true
  · cases h2 : alookup sid st.shard_states with
    | none =>
      rw [handleOrder_no_shard_state sigOk st order sid h1 h2] at h
      simp at h
    | some s =>
      by_cases h3 : sigOk order.transfer order.transfer.sender
          order.signature = true
      · by_cases h4 : order.transfer.interop_tx_id ∈ s.processed_transfers
        · rw [handleOrder_already_processed sigOk st order sid h1 h2 h3 h4] at h
          simp at h
        · cases h5 : st.escrow_verifier order.transfer with
          | error e =>
            rw [handleOrder_oracle_error sigOk st order sid h1 h2 h3 h4 h5] at h
            simp at h
          | ok b =>
            cases b with
            | false =>
              rw [handleOrder_oracle_false sigOk st order sid h1 h2 h3 h4 h5] at h
              simp at h
            | true =>
              rw [handleOrder_success sigOk st order sid h1 h2 h3 h4 h5] at h
              injection h with h
              exact ⟨h1, h3, rfl, h.symm, s, rfl, h4⟩
      · rw [handleOrder_bad_sig sigOk st order sid h1 h2 h3] at h
        simp at h
  · rw [handleOrder_wrong_shard sigOk st order sid h1] at h
    simp at h

/-- One operation changes membership of `τ` in a shard's processed set
exactly when it is a valid cross-shard update certifying `τ` for that
shard. -/
theorem applyOp_processed_mem (sigOk : CrossChainTransfer → Pubkey → Signature → Bool)
    (st : BridgeAuthorityState) (op : Op) (sh : ShardId) (τ : InteropTxId)
    {s : BridgeShardState} (h : alookup sh st.shard_states = some s) :
    ∃ s', alookup sh (applyOp sigOk st op).shard_states = some s' ∧
      (τ ∈ s'.processed_transfers ↔
        (τ ∈ s.processed_transfers ∨
          certifiesUpdate sigOk st.committee sh τ op = true)) := by
  cases op with
  | order o sid =>
    have hcf : certifiesUpdate sigOk st.committee sh τ (Op.order o sid) =
        false := rfl
    rcases handleOrder_state_cases sigOk st o sid with he | ⟨s0, hl0, he⟩
    · refine ⟨s, ?_, by simp [hcf]⟩
      show alookup sh
        (handle_cross_chain_transfer_order sigOk st o sid).1.shard_states =
        some s
      rw [he]
      exact h
    · by_cases hsh : sh = sid
      · subst hsh
        rw [h] at hl0
        injection hl0 with hl0
        subst hl0
        refine ⟨{ s with
            pending_transfers := mapInsert o.transfer.interop_tx_id o
              s.pending_transfers }, ?_, by simp [hcf]⟩
        show alookup sh
          (handle_cross_chain_transfer_order sigOk st o sh).1.shard_states =
          some _
        rw [he]
        show alookup sh (updateValue sh _ st.shard_states) = some _
        rw [alookup_updateValue, if_pos rfl, h]
        rfl
      · refine ⟨s, ?_, by simp [hcf]⟩
        show alookup sh
          (handle_cross_chain_transfer_order sigOk st o sid).1.shard_states =
          some s
        rw [he]
        show alookup sh (updateValue sid _ st.shard_states) = some s
        rw [alookup_updateValue, if_neg hsh]
        exact h
  | update u =>
    by_cases hsh : u.shard_id = sh
    · subst hsh
      cases hchk : u.transfer_certificate.check sigOk st.committee with
      | error e =>
        rw [show applyOp sigOk st (Op.update u) =
          (handle_cross_shard_update sigOk st u).1 from rfl,
          handleUpdate_cert_error sigOk st h hchk]
        refine ⟨s, h, ?_⟩
        simp [certifiesUpdate, hchk]
      | ok v =>
        cases v
        rw [show applyOp sigOk st (Op.update u) =
          (handle_cross_shard_update sigOk st u).1 from rfl,
          handleUpdate_success sigOk st h hchk]
        refine ⟨{ s with
            processed_transfers := setInsert
              u.transfer_certificate.value.transfer.interop_tx_id
              s.processed_transfers
            pending_transfers := mapRemove
              u.transfer_certificate.value.transfer.interop_tx_id
              s.pending_transfers }, ?_, ?_⟩
        · show alookup u.shard_id (updateValue u.shard_id _ st.shard_states) =
            some _
          rw [alookup_updateValue, if_pos rfl, h]
          rfl
        · show τ ∈ setInsert
              u.transfer_certificate.value.transfer.interop_tx_id
              s.processed_transfers ↔ _
          rw [mem_setInsert]
          simp only [certifiesUpdate, hchk, decide_eq_true_eq, Bool.and_true,
            Bool.true_and, decide_True, Bool.and_eq_true, true_and]
          constructor
          · rintro (he | hp)
            · exact Or.inr he.symm
            · exact Or.inl hp
          · rintro (hp | he)
            · exact Or.inr hp
            · exact Or.inl he.symm
    · have hcf : certifiesUpdate sigOk st.committee sh τ (Op.update u) =
          false := by
        simp [certifiesUpdate, hsh]
      rcases handleUpdate_state_cases sigOk st u with he | ⟨s0, hl0, hchk, he⟩
      · refine ⟨s, ?_, by simp [hcf]⟩
        show alookup sh
          (handle_cross_shard_update sigOk st u).1.shard_states = some s
        rw [he]
        exact h
      · refine ⟨s, ?_, by simp [hcf]⟩
        show alookup sh
          (handle_cross_shard_update sigOk st u).1.shard_states = some s
        rw [he]
        show alookup sh (updateValue u.shard_id _ st.shard_states) = some s
        rw [alookup_updateValue, if_neg (fun hh => hsh hh.symm)]
        exact h

/-- Across an operation sequence, `τ` ends processed on shard `sh`
exactly when it started processed or some operation was a valid
cross-shard update certifying `τ` for `sh`. -/
theorem runOps_processed_iff (sigOk : CrossChainTransfer → Pubkey → Signature → Bool)
    (sh : ShardId) (τ : InteropTxId) (ops : List Op) :
    ∀ (st : BridgeAuthorityState) (s : BridgeShardState),
    alookup sh st.shard_states = some s →
    ∃ s2, alookup sh (runOps sigOk st ops).shard_states = some s2 ∧
      (τ ∈ s2.processed_transfers ↔
        (τ ∈ s.processed_transfers ∨
          ops.any (certifiesUpdate sigOk st.committee sh τ) = true)) := by
  induction ops with
  | nil =>
    intro st s h
    exact ⟨s, h, by simp⟩
  | cons op rest ih =>
    intro st s h
    obtain ⟨s1, h1, hiff1⟩ := applyOp_processed_mem sigOk st op sh τ h
    obtain ⟨s2, h2, hiff2⟩ := ih (applyOp sigOk st op) s1 h1
    refine ⟨s2, h2, ?_⟩
    rw [hiff2, hiff1, applyOp_committee sigOk st op]
    simp [List.any_cons, Bool.or_eq_true, or_assoc]

/-- Operations never change the committee, the escrow oracle, the
authority name or the signing function. -/
theorem runOps_fixed_fields (sigOk : CrossChainTransfer → Pubkey → Signature → Bool)
    (ops : List Op) : ∀ st : BridgeAuthorityState,
    (runOps sigOk st ops).committee = st.committee ∧
      (runOps sigOk st ops).escrow_verifier = st.escrow_verifier ∧
      (runOps sigOk st ops).name = st.name ∧
      (runOps sigOk st ops).secretSign = st.secretSign := by
  induction ops with
  | nil => intro st; exact ⟨rfl, rfl, rfl, rfl⟩
  | cons op rest ih =>
    intro st
    simp only [runOps, List.foldl_cons]
    rcases applyOp_state_cases sigOk st op with h | ⟨k, s', h⟩
    · rw [h]
      exact ih st
    · rw [h]
      exact ih _

/-- A shard id absent from the shard map stays absent under any
operation sequence. -/
theorem runOps_alookup_none (sigOk : CrossChainTransfer → Pubkey → Signature → Bool)
    (sh : ShardId) (ops : List Op) : ∀ st : BridgeAuthorityState,
    alookup sh st.shard_states = none →
    alookup sh (runOps sigOk st ops).shard_states = none := by
  induction ops with
  | nil => intro st h; exact h
  | cons op rest ih =>
    intro st h
    simp only [runOps, List.foldl_cons] at ih ⊢
    apply ih
    rcases applyOp_state_cases sigOk st op with he | ⟨k, s', he⟩
    · rw [he]
      exact h
    · rw [he]
      exact alookup_updateValue_none h

end HandlerLemmas

/-- Counterexample to C2 as stated: an `UnknownSigner` rejection does
not leave the aggregator unchanged — the zero-weight authority is
already recorded in the used-authority set (the code inserts into
`used_authorities` before testing the voting rights). -/
theorem aggregator_append_rejection_mutates :
    ((CrossChainSignatureAggregator.new_unsafe
          ⟨⟨⟨0⟩, ⟨0⟩, ⟨[0]⟩, ⟨[0]⟩, 0, ⟨[0]⟩, ⟨[0]⟩, ⟨[0]⟩, 0⟩, ⟨[]⟩⟩
          ⟨[(⟨[1]⟩, 1)]⟩).append (fun _ _ _ => true) ⟨[2]⟩ ⟨[]⟩).2 =
        .error .UnknownSigner ∧
      ((CrossChainSignatureAggregator.new_unsafe
          ⟨⟨⟨0⟩, ⟨0⟩, ⟨[0]⟩, ⟨[0]⟩, 0, ⟨[0]⟩, ⟨[0]⟩, ⟨[0]⟩, 0⟩, ⟨[]⟩⟩
          ⟨[(⟨[1]⟩, 1)]⟩).append (fun _ _ _ => true) ⟨[2]⟩
            ⟨[]⟩).1.used_authorities ≠
        (CrossChainSignatureAggregator.new_unsafe
          ⟨⟨⟨0⟩, ⟨0⟩, ⟨[0]⟩, ⟨[0]⟩, 0, ⟨[0]⟩, ⟨[0]⟩, ⟨[0]⟩, 0⟩, ⟨[]⟩⟩
          ⟨[(⟨[1]⟩, 1)]⟩).used_authorities := by
  decide

/-- C2 (amended): `append` checks the signature first, then authority
reuse, then committee weight; an `InvalidSignature` or
`CertificateAuthorityReuse` rejection changes nothing, an
`UnknownSigner` rejection records the authority as used (weight and
partial signatures unchanged), and an accepted pair is recorded, its
weight added, with the completed certificate returned exactly when the
accumulated weight reaches the quorum threshold and `None` otherwise. -/
theorem aggregator_append_characterization
    (sigOk : CrossChainTransfer → Pubkey → Signature → Bool)
    (st : CrossChainSignatureAggregator) (authority : AuthorityName)
    (signature : Signature) :
    (¬ sigOk st.partialCert.value.transfer authority signature = true →
      st.append sigOk authority signature = (st, .error .InvalidSignature)) ∧
    (sigOk st.partialCert.value.transfer authority signature = true →
      authority ∈ st.used_authorities →
      st.append sigOk authority signature =
        (st, .error .CertificateAuthorityReuse)) ∧
    (sigOk st.partialCert.value.transfer authority signature = true →
      authority ∉ st.used_authorities →
      st.committee.weight authority = 0 →
      st.append sigOk authority signature =
        ({ st with
            used_authorities := setInsert authority st.used_authorities },
          .error .UnknownSigner)) ∧
    (sigOk st.partialCert.value.transfer authority signature = true →
      authority ∉ st.used_authorities →
      0 < st.committee.weight authority →
      st.append sigOk authority signature =
        ({ st with
            used_authorities := setInsert authority st.used_authorities
            weight := st.weight + st.committee.weight authority
            partialCert := { st.partialCert with
              signatures :=
                st.partialCert.signatures ++ [(authority, signature)] } },
          .ok (if st.committee.quorum_threshold ≤
              st.weight + st.committee.weight authority
            then some { st.partialCert with
              signatures :=
                st.partialCert.signatures ++ [(authority, signature)] }
            else none))) := by
  refine ⟨?_, ?_, ?_, ?_⟩
  · intro h1
    simp [CrossChainSignatureAggregator.append, h1]
  · intro h1 h2
    simp [CrossChainSignatureAggregator.append, h1, h2]
  · intro h1 h2 h3
    simp [CrossChainSignatureAggregator.append, h1, h2, h3]
  · intro h1 h2 h3
    simp only [CrossChainSignatureAggregator.append, h1, h2, h3,
      not_true_eq_false, if_false, if_neg h2, if_pos h3]
    by_cases h4 : st.committee.quorum_threshold ≤
        st.weight + st.committee.weight authority
    · simp [h4]
    · simp [h4]

/-- Witness for C2 (amended): for a one-member unit-weight committee
(quorum 1) the single accepted append immediately completes the
certificate. -/
theorem aggregator_append_characterization_witness :
    (CrossChainSignatureAggregator.new_unsafe
        ⟨⟨⟨0⟩, ⟨0⟩, ⟨[0]⟩, ⟨[0]⟩, 0, ⟨[0]⟩, ⟨[0]⟩, ⟨[0]⟩, 0⟩, ⟨[]⟩⟩
        ⟨[(⟨[1]⟩, 1)]⟩).append (fun _ _ _ => true) ⟨[1]⟩ ⟨[7]⟩ =
      ({ committee := ⟨[(⟨[1]⟩, 1)]⟩
         weight := 1
         used_authorities := [⟨[1]⟩]
         partialCert :=
           { value := ⟨⟨⟨0⟩, ⟨0⟩, ⟨[0]⟩, ⟨[0]⟩, 0, ⟨[0]⟩, ⟨[0]⟩, ⟨[0]⟩, 0⟩, ⟨[]⟩⟩
             signatures := [(⟨[1]⟩, ⟨[7]⟩)] } },
        .ok (some
          { value := ⟨⟨⟨0⟩, ⟨0⟩, ⟨[0]⟩, ⟨[0]⟩, 0, ⟨[0]⟩, ⟨[0]⟩, ⟨[0]⟩, 0⟩, ⟨[]⟩⟩
            signatures := [(⟨[1]⟩, ⟨[7]⟩)] })) := by
  rw [(aggregator_append_characterization (fun _ _ _ => true)
    (CrossChainSignatureAggregator.new_unsafe
      ⟨⟨⟨0⟩, ⟨0⟩, ⟨[0]⟩, ⟨[0]⟩, 0, ⟨[0]⟩, ⟨[0]⟩, ⟨[0]⟩, 0⟩, ⟨[]⟩⟩
      ⟨[(⟨[1]⟩, 1)]⟩) ⟨[1]⟩ ⟨[7]⟩).2.2.2 rfl (by decide) (by decide)]
  decide

/-- Counterexample to C3 as stated: when the escrow oracle fails with an
error, `handle_cross_chain_transfer_order` propagates the oracle's own
error through `?` instead of rejecting with `InvalidTransferAmount`. -/
theorem handle_order_oracle_error_propagates :
    (handle_cross_chain_transfer_order (fun _ _ _ => true)
          (BridgeAuthorityState.new ⟨[9]⟩ (fun _ => ⟨[5]⟩) ⟨[]⟩ 16
            (fun _ => .error .CommunicationError))
          ⟨⟨⟨0⟩, ⟨0⟩, ⟨[0]⟩, ⟨[0]⟩, 0, ⟨[0]⟩, ⟨[0]⟩, ⟨[0]⟩, 0⟩, ⟨[]⟩⟩ 0).2 =
        .error .CommunicationError ∧
      (handle_cross_chain_transfer_order (fun _ _ _ => true)
          (BridgeAuthorityState.new ⟨[9]⟩ (fun _ => ⟨[5]⟩) ⟨[]⟩ 16
            (fun _ => .error .CommunicationError))
          ⟨⟨⟨0⟩, ⟨0⟩, ⟨[0]⟩, ⟨[0]⟩, 0, ⟨[0]⟩, ⟨[0]⟩, ⟨[0]⟩, 0⟩, ⟨[]⟩⟩ 0).2 ≠
        .error .InvalidTransferAmount := by
  decide

/-- C3 (amended): the handler follows the specified rejection sequence
(WrongShard, then ShardStateNotFound, then InvalidSignature, then
CertificateAlreadyExists), rejects `InvalidTransferAmount` when the
escrow oracle answers `false` but propagates the oracle's own error when
it fails, and otherwise inserts the order into pending (replacing any
entry with that id) and returns a signed order carrying this authority's
name and signature over the transfer; every rejection leaves the state
unchanged. -/
theorem handle_order_characterization
    (sigOk : CrossChainTransfer → Pubkey → Signature → Bool)
    (st : BridgeAuthorityState) (order : CrossChainTransferOrder)
    (shard_id : ShardId) :
    (¬ st.in_shard order.transfer shard_id = true →
      handle_cross_chain_transfer_order sigOk st order shard_id =
        (st, .error .WrongShard)) ∧
    (st.in_shard order.transfer shard_id = true →
      alookup shard_id st.shard_states = none →
      handle_cross_chain_transfer_order sigOk st order shard_id =
        (st, .error (.ShardStateNotFound shard_id))) ∧
    (∀ s, st.in_shard order.transfer shard_id = true →
      alookup shard_id st.shard_states = some s →
      ¬ sigOk order.transfer order.transfer.sender order.signature = true →
      handle_cross_chain_transfer_order sigOk st order shard_id =
        (st, .error .InvalidSignature)) ∧
    (∀ s, st.in_shard order.transfer shard_id = true →
      alookup shard_id st.shard_states = some s →
      sigOk order.transfer order.transfer.sender order.signature = true →
      order.transfer.interop_tx_id ∈ s.processed_transfers →
      handle_cross_chain_transfer_order sigOk st order shard_id =
        (st, .error .CertificateAlreadyExists)) ∧
    (∀ s e, st.in_shard order.transfer shard_id = true →
      alookup shard_id st.shard_states = some s →
      sigOk order.transfer order.transfer.sender order.signature = true →
      order.transfer.interop_tx_id ∉ s.processed_transfers →
      st.escrow_verifier order.transfer = .error e →
      handle_cross_chain_transfer_order sigOk st order shard_id =
        (st, .error e)) ∧
    (∀ s, st.in_shard order.transfer shard_id = true →
      alookup shard_id st.shard_states = some s →
      sigOk order.transfer order.transfer.sender order.signature = true →
      order.transfer.interop_tx_id ∉ s.processed_transfers →
      st.escrow_verifier order.transfer = .ok false →
      handle_cross_chain_transfer_order sigOk st order shard_id =
        (st, .error .InvalidTransferAmount)) ∧
    (∀ s, st.in_shard order.transfer shard_id = true →
      alookup shard_id st.shard_states = some s →
      sigOk order.transfer order.transfer.sender order.signature = true →
      order.transfer.interop_tx_id ∉ s.processed_transfers →
      st.escrow_verifier order.transfer = .ok true →
      handle_cross_chain_transfer_order sigOk st order shard_id =
        ({ st with
            shard_states := updateValue shard_id
              { s with
                  pending_transfers := mapInsert order.transfer.interop_tx_id
                    order s.pending_transfers }
              st.shard_states },
          .ok { value := order
                authority := st.name
                signature := st.secretSign order.transfer })) :=
  ⟨fun h1 => handleOrder_wrong_shard sigOk st order shard_id h1,
    fun h1 h2 => handleOrder_no_shard_state sigOk st order shard_id h1 h2,
    fun _ h1 h2 h3 => handleOrder_bad_sig sigOk st order shard_id h1 h2 h3,
    fun _ h1 h2 h3 h4 =>
      handleOrder_already_processed sigOk st order shard_id h1 h2 h3 h4,
    fun _ _ h1 h2 h3 h4 h5 =>
      handleOrder_oracle_error sigOk st order shard_id h1 h2 h3 h4 h5,
    fun _ h1 h2 h3 h4 h5 =>
      handleOrder_oracle_false sigOk st order shard_id h1 h2 h3 h4 h5,
    fun _ h1 h2 h3 h4 h5 =>
      handleOrder_success sigOk st order shard_id h1 h2 h3 h4 h5⟩

/-- Witness for C3 (amended): on a fresh 16-shard authority whose oracle
accepts, a well-formed order for shard 0 is recorded pending and
countersigned. -/
theorem handle_order_characterization_witness :
    handle_cross_chain_transfer_order (fun _ _ _ => true)
        (BridgeAuthorityState.new ⟨[9]⟩ (fun _ => ⟨[5]⟩) ⟨[]⟩ 16
          (fun _ => .ok true))
        ⟨⟨⟨0⟩, ⟨0⟩, ⟨[0]⟩, ⟨[0]⟩, 0, ⟨[0]⟩, ⟨[0]⟩, ⟨[0]⟩, 0⟩, ⟨[]⟩⟩ 0 =
      ({ BridgeAuthorityState.new ⟨[9]⟩ (fun _ => ⟨[5]⟩) ⟨[]⟩ 16
            (fun _ => .ok true) with
          shard_states := updateValue 0
            { BridgeShardState.new 0 with
                pending_transfers := mapInsert ⟨[0]⟩
                  ⟨⟨⟨0⟩, ⟨0⟩, ⟨[0]⟩, ⟨[0]⟩, 0, ⟨[0]⟩, ⟨[0]⟩, ⟨[0]⟩, 0⟩, ⟨[]⟩⟩
                  [] }
            (BridgeAuthorityState.new ⟨[9]⟩ (fun _ => ⟨[5]⟩) ⟨[]⟩ 16
              (fun _ => .ok true)).shard_states },
        .ok { value := ⟨⟨⟨0⟩, ⟨0⟩, ⟨[0]⟩, ⟨[0]⟩, 0, ⟨[0]⟩, ⟨[0]⟩, ⟨[0]⟩, 0⟩, ⟨[]⟩⟩
              authority := ⟨[9]⟩
              signature := ⟨[5]⟩ }) :=
  (handle_order_characterization (fun _ _ _ => true)
    (BridgeAuthorityState.new ⟨[9]⟩ (fun _ => ⟨[5]⟩) ⟨[]⟩ 16
      (fun _ => .ok true))
    ⟨⟨⟨0⟩, ⟨0⟩, ⟨[0]⟩, ⟨[0]⟩, 0, ⟨[0]⟩, ⟨[0]⟩, ⟨[0]⟩, 0⟩, ⟨[]⟩⟩ 0).2.2.2.2.2.2
    (BridgeShardState.new 0) rfl (by rfl) rfl (by decide) rfl

/-- C10: on an authority created with fewer than 16 shards, a transfer
whose sender's first byte modulo 16 is at least `number_of_shards` can
never be served, in any reachable state: every shard id other than the
owning one is rejected with `WrongShard`, and the owning shard itself
with `ShardStateNotFound` (shard states exist only for ids below
`number_of_shards` while the shard function is hard-coded modulo 16);
the state is unchanged either way. -/
theorem out_of_range_shard_unservable
    (sigOk : CrossChainTransfer → Pubkey → Signature → Bool)
    (name : AuthorityName) (secretSign : CrossChainTransfer → Signature)
    (committee : Committee) (n : Nat)
    (escrow : CrossChainTransfer → Except FastPayError Bool)
    (ops : List Op) (order : CrossChainTransferOrder) (sh : ShardId)
    (hn : n < 16) (ht : n ≤ order.transfer.shard_id) :
    handle_cross_chain_transfer_order sigOk
        (runOps sigOk
          (BridgeAuthorityState.new name secretSign committee n escrow) ops)
        order sh =
      (runOps sigOk
          (BridgeAuthorityState.new name secretSign committee n escrow) ops,
        .error (if sh = order.transfer.shard_id
          then .ShardStateNotFound sh else .WrongShard)) := by
  by_cases hsh : sh = order.transfer.shard_id
  · have h1 : (runOps sigOk
        (BridgeAuthorityState.new name secretSign committee n escrow)
        ops).in_shard order.transfer sh = true := by
      have he : (runOps sigOk
          (BridgeAuthorityState.new name secretSign committee n escrow)
          ops).get_shard_id order.transfer = sh := hsh.symm
      simp [BridgeAuthorityState.in_shard, he]
    have h2 : alookup sh (runOps sigOk
        (BridgeAuthorityState.new name secretSign committee n escrow)
        ops).shard_states = none := by
      apply runOps_alookup_none
      show alookup sh
        ((List.range n).map fun i => (i, BridgeShardState.new i)) = none
      rw [alookup_rangeMap]
      have hge : n ≤ sh := hsh ▸ ht
      rw [if_neg (by omega)]
    rw [handleOrder_no_shard_state sigOk _ order sh h1 h2, if_pos hsh]
  · have h1 : ¬ (runOps sigOk
        (BridgeAuthorityState.new name secretSign committee n escrow)
        ops).in_shard order.transfer sh = true := by
      simp only [BridgeAuthorityState.in_shard, decide_eq_true_eq]
      exact fun hh => hsh hh.symm
    rw [handleOrder_wrong_shard sigOk _ order sh h1, if_neg hsh]

/-- Witness for C10: a one-shard authority, a transfer owned by shard 5:
shard 5 answers `ShardStateNotFound`. -/
theorem out_of_range_shard_unservable_witness :
    handle_cross_chain_transfer_order (fun _ _ _ => true)
        (runOps (fun _ _ _ => true)
          (BridgeAuthorityState.new ⟨[9]⟩ (fun _ => ⟨[5]⟩) ⟨[]⟩ 1
            (fun _ => .ok true)) [])
        ⟨⟨⟨0⟩, ⟨0⟩, ⟨[5]⟩, ⟨[0]⟩, 0, ⟨[0]⟩, ⟨[0]⟩, ⟨[0]⟩, 0⟩, ⟨[]⟩⟩ 5 =
      (runOps (fun _ _ _ => true)
          (BridgeAuthorityState.new ⟨[9]⟩ (fun _ => ⟨[5]⟩) ⟨[]⟩ 1
            (fun _ => .ok true)) [],
        .error (.ShardStateNotFound 5)) :=
  out_of_range_shard_unservable (fun _ _ _ => true) ⟨[9]⟩ (fun _ => ⟨[5]⟩)
    ⟨[]⟩ 1 (fun _ => .ok true) []
    ⟨⟨⟨0⟩, ⟨0⟩, ⟨[5]⟩, ⟨[0]⟩, 0, ⟨[0]⟩, ⟨[0]⟩, ⟨[0]⟩, 0⟩, ⟨[]⟩⟩ 5
    (by decide) (by decide)

/-- A fresh authority state satisfies the per-shard invariants (all
shard maps are empty). -/
theorem shardsInvariant_new (name : AuthorityName)
    (secretSign : CrossChainTransfer → Signature) (committee : Committee)
    (n : Nat) (escrow : CrossChainTransfer → Except FastPayError Bool) :
    shardsInvariant
      (BridgeAuthorityState.new name secretSign committee n escrow) := by
  intro sh s h
  rw [show (BridgeAuthorityState.new name secretSign committee n
      escrow).shard_states =
    ((List.range n).map fun i => (i, BridgeShardState.new i)) from rfl] at h
  rw [alookup_rangeMap] at h
  by_cases hlt : sh < n
  · rw [if_pos hlt] at h
    injection h with h
    subst h
    constructor
    · intro τ hτ
      simp [BridgeShardState.new] at hτ
    · intro p hp
      simp [BridgeShardState.new] at hp
  · rw [if_neg hlt] at h
    cases h

/-- One operation preserves the per-shard invariants. -/
theorem shardsInvariant_applyOp
    (sigOk : CrossChainTransfer → Pubkey → Signature → Bool)
    (st : BridgeAuthorityState) (op : Op)
    (hinv : shardsInvariant st) : shardsInvariant (applyOp sigOk st op) := by
  cases op with
  | order o sid =>
    show shardsInvariant (handle_cross_chain_transfer_order sigOk st o sid).1
    by_cases h1 : st.in_shard o.transfer sid = true
    · cases h2 : alookup sid st.shard_states with
      | none => rw [handleOrder_no_shard_state sigOk st o sid h1 h2]; exact hinv
      | some s =>
        by_cases h3 : sigOk o.transfer o.transfer.sender o.signature = true
        · by_cases h4 : o.transfer.interop_tx_id ∈ s.processed_transfers
          · rw [handleOrder_already_processed sigOk st o sid h1 h2 h3 h4]
            exact hinv
          · cases h5 : st.escrow_verifier o.transfer with
            | error e =>
              rw [handleOrder_oracle_error sigOk st o sid h1 h2 h3 h4 h5]
              exact hinv
            | ok b =>
              cases b with
              | false =>
                rw [handleOrder_oracle_false sigOk st o sid h1 h2 h3 h4 h5]
                exact hinv
              | true =>
                rw [handleOrder_success sigOk st o sid h1 h2 h3 h4 h5]
                intro sh2 s2 hlook
                rw [show ({ st with
                    shard_states := updateValue sid
                      { s with
                          pending_transfers := mapInsert
                            o.transfer.interop_tx_id o s.pending_transfers }
                      st.shard_states } :
                    BridgeAuthorityState).shard_states =
                  updateValue sid
                    { s with
                        pending_transfers := mapInsert
                          o.transfer.interop_tx_id o s.pending_transfers }
                    st.shard_states from rfl] at hlook
                rw [alookup_updateValue] at hlook
                by_cases hsh : sh2 = sid
                · rw [if_pos hsh, h2] at hlook
                  injection hlook with hlook
                  subst hlook
                  constructor
                  · intro τ hτ p hp
                    rcases mem_mapInsert hp with rfl | ⟨hpm, hpk⟩
                    · intro he
                      have h6 : o.transfer.interop_tx_id ∈
                          s.processed_transfers := by
                        have h7 : o.transfer.interop_tx_id = τ := he
                        rw [h7]
                        exact hτ
                      exact h4 h6
                    · exact (hinv sid s h2).1 τ hτ p hpm
                  · intro p hp
                    rcases mem_mapInsert hp with rfl | ⟨hpm, hpk⟩
                    · subst hsh
                      simp only [BridgeAuthorityState.in_shard,
                        decide_eq_true_eq] at h1
                      exact h1
                    · exact hsh ▸ (hinv sid s h2).2 p hpm
                · rw [if_neg hsh] at hlook
                  exact hinv sh2 s2 hlook
        · rw [handleOrder_bad_sig sigOk st o sid h1 h2 h3]
          exact hinv
    · rw [handleOrder_wrong_shard sigOk st o sid h1]
      exact hinv
  | update u =>
    show shardsInvariant (handle_cross_shard_update sigOk st u).1
    cases h1 : alookup u.shard_id st.shard_states with
    | none => rw [handleUpdate_no_shard_state sigOk st h1]; exact hinv
    | some s =>
      cases h2 : u.transfer_certificate.check sigOk st.committee with
      | error e => rw [handleUpdate_cert_error sigOk st h1 h2]; exact hinv
      | ok v =>
        rw [handleUpdate_success sigOk st h1 h2]
        intro sh2 s2 hlook
        rw [show ({ st with
            shard_states := updateValue u.shard_id
              { s with
                  processed_transfers := setInsert
                    u.transfer_certificate.value.transfer.interop_tx_id
                    s.processed_transfers
                  pending_transfers := mapRemove
                    u.transfer_certificate.value.transfer.interop_tx_id
                    s.pending_transfers }
              st.shard_states } :
            BridgeAuthorityState).shard_states =
          updateValue u.shard_id
            { s with
                processed_transfers := setInsert
                  u.transfer_certificate.value.transfer.interop_tx_id
                  s.processed_transfers
                pending_transfers := mapRemove
                  u.transfer_certificate.value.transfer.interop_tx_id
                  s.pending_transfers }
            st.shard_states from rfl] at hlook
        rw [alookup_updateValue] at hlook
        by_cases hsh : sh2 = u.shard_id
        · rw [if_pos hsh, h1] at hlook
          injection hlook with hlook
          subst hlook
          constructor
          · intro τ hτ p hp
            obtain ⟨hpm, hpk⟩ := mem_mapRemove.1 hp
            rcases mem_setInsert.1 hτ with rfl | hτ2
            · exact hpk
            · exact (hinv u.shard_id s h1).1 τ hτ2 p hpm
          · intro p hp
            obtain ⟨hpm, hpk⟩ := mem_mapRemove.1 hp
            exact hsh ▸ (hinv u.shard_id s h1).2 p hpm
        · rw [if_neg hsh] at hlook
          exact hinv sh2 s2 hlook

/-- Operation sequences preserve the per-shard invariants. -/
theorem shardsInvariant_runOps
    (sigOk : CrossChainTransfer → Pubkey → Signature → Bool)
    (ops : List Op) : ∀ st : BridgeAuthorityState, shardsInvariant st →
    shardsInvariant (runOps sigOk st ops) := by
  induction ops with
  | nil => exact fun st h => h
  | cons op rest ih =>
    intro st h
    exact ih (applyOp sigOk st op) (shardsInvariant_applyOp sigOk st op h)

/-- C5: in every state reachable from a fresh authority by any sequence
of order and cross-shard-update operations, no interop id is both in a
shard's processed set and a key of its pending map, and every pending
order resolves to its own shard under the shard function. -/
theorem shard_state_invariants_reachable
    (sigOk : CrossChainTransfer → Pubkey → Signature → Bool)
    (name : AuthorityName) (secretSign : CrossChainTransfer → Signature)
    (committee : Committee) (n : Nat)
    (escrow : CrossChainTransfer → Except FastPayError Bool)
    (ops : List Op) :
    shardsInvariant (runOps sigOk
      (BridgeAuthorityState.new name secretSign committee n escrow) ops) :=
  shardsInvariant_runOps sigOk ops _
    (shardsInvariant_new name secretSign committee n escrow)

/-- C4: after `handle_cross_chain_transfer_order` succeeds for an order
on its shard, a later identical request on that shard (after any
operation sequence) returns `CertificateAlreadyExists` exactly when a
valid cross-shard update certifying that interop id has been applied to
that shard in between; otherwise the identical signed order is returned
again (idempotent re-vote).  The escrow oracle is a fixed pure function
of the transfer in this model; the first success pins its answer to
`Ok(true)`. -/
theorem revote_until_update_applied
    (sigOk : CrossChainTransfer → Pubkey → Signature → Bool)
    (st : BridgeAuthorityState) (order : CrossChainTransferOrder)
    (sh : ShardId) (signed : SignedCrossChainTransferOrder) (ops : List Op)
    (hfirst : (handle_cross_chain_transfer_order sigOk st order sh).2 =
      .ok signed) :
    ((handle_cross_chain_transfer_order sigOk
          (runOps sigOk
            (handle_cross_chain_transfer_order sigOk st order sh).1 ops)
          order sh).2 = .error .CertificateAlreadyExists ↔
        ops.any (certifiesUpdate sigOk st.committee sh
          order.transfer.interop_tx_id) = true) ∧
      (ops.any (certifiesUpdate sigOk st.committee sh
          order.transfer.interop_tx_id) = false →
        (handle_cross_chain_transfer_order sigOk
          (runOps sigOk
            (handle_cross_chain_transfer_order sigOk st order sh).1 ops)
          order sh).2 = .ok signed) := by
  obtain ⟨h1, h3, h5, hsigned, s, h2, h4⟩ :=
    handleOrder_ok_inversion sigOk st order sh hfirst
  have hst1 : (handle_cross_chain_transfer_order sigOk st order sh).1 =
      { st with
          shard_states := updateValue sh
            { s with
                pending_transfers := mapInsert order.transfer.interop_tx_id
                  order s.pending_transfers }
            st.shard_states } := by
    rw [handleOrder_success sigOk st order sh h1 h2 h3 h4 h5]
  have hl1 : alookup sh
      (handle_cross_chain_transfer_order sigOk st order sh).1.shard_states =
      some { s with
          pending_transfers := mapInsert order.transfer.interop_tx_id
            order s.pending_transfers } := by
    rw [hst1]
    show alookup sh (updateValue sh _ st.shard_states) = some _
    rw [alookup_updateValue, if_pos rfl, h2]
    rfl
  obtain ⟨s2, hl2, hiff⟩ := runOps_processed_iff sigOk sh
    order.transfer.interop_tx_id ops _ _ hl1
  have hcomm : (handle_cross_chain_transfer_order sigOk st
      order sh).1.committee = st.committee := by
    rw [hst1]
  rw [hcomm] at hiff
  have hiff2 : order.transfer.interop_tx_id ∈ s2.processed_transfers ↔
      ops.any (certifiesUpdate sigOk st.committee sh
        order.transfer.interop_tx_id) = true := by
    rw [hiff]
    constructor
    · rintro (hmem | hany)
      · exact absurd hmem h4
      · exact hany
    · exact Or.inr
  have h1b : (runOps sigOk
      (handle_cross_chain_transfer_order sigOk st order sh).1
      ops).in_shard order.transfer sh = true := h1
  have hesc2 : (runOps sigOk
      (handle_cross_chain_transfer_order sigOk st order sh).1
      ops).escrow_verifier order.transfer = .ok true := by
    rw [(runOps_fixed_fields sigOk ops _).2.1, hst1]
    exact h5
  by_cases hany : ops.any (certifiesUpdate sigOk st.committee sh
      order.transfer.interop_tx_id) = true
  · have hmem : order.transfer.interop_tx_id ∈ s2.processed_transfers :=
      hiff2.2 hany
    constructor
    · constructor
      · intro _
        exact hany
      · intro _
        rw [handleOrder_already_processed sigOk _ order sh h1b hl2 h3 hmem]
    · intro hf
      rw [hf] at hany
      simp at hany
  · have hnmem : order.transfer.interop_tx_id ∉ s2.processed_transfers :=
      fun hm => hany (hiff2.1 hm)
    have hres := handleOrder_success sigOk _ order sh h1b hl2 h3 hnmem hesc2
    have hn2 : (runOps sigOk
        (handle_cross_chain_transfer_order sigOk st order sh).1
        ops).name = st.name := by
      rw [(runOps_fixed_fields sigOk ops _).2.2.1, hst1]
    have hs2 : (runOps sigOk
        (handle_cross_chain_transfer_order sigOk st order sh).1
        ops).secretSign = st.secretSign := by
      rw [(runOps_fixed_fields sigOk ops _).2.2.2, hst1]
    constructor
    · constructor
      · intro herr
        rw [hres] at herr
        simp at herr
      · intro ha
        exact absurd ha hany
    · intro _
      rw [hres, hsigned]
      show Except.ok _ = Except.ok _
      rw [hn2, hs2]

/-- Witness for C4: on a fresh accepting authority, with no intervening
operations, the re-vote returns the identical signed order. -/
theorem revote_until_update_applied_witness :
    (handle_cross_chain_transfer_order (fun _ _ _ => true)
        (runOps (fun _ _ _ => true)
          (handle_cross_chain_transfer_order (fun _ _ _ => true)
            (BridgeAuthorityState.new ⟨[9]⟩ (fun _ => ⟨[5]⟩) ⟨[]⟩ 16
              (fun _ => .ok true))
            ⟨⟨⟨0⟩, ⟨0⟩, ⟨[0]⟩, ⟨[0]⟩, 0, ⟨[0]⟩, ⟨[0]⟩, ⟨[0]⟩, 0⟩, ⟨[]⟩⟩ 0).1
          [])
        ⟨⟨⟨0⟩, ⟨0⟩, ⟨[0]⟩, ⟨[0]⟩, 0, ⟨[0]⟩, ⟨[0]⟩, ⟨[0]⟩, 0⟩, ⟨[]⟩⟩ 0).2 =
      .ok { value := ⟨⟨⟨0⟩, ⟨0⟩, ⟨[0]⟩, ⟨[0]⟩, 0, ⟨[0]⟩, ⟨[0]⟩, ⟨[0]⟩, 0⟩, ⟨[]⟩⟩
            authority := ⟨[9]⟩
            signature := ⟨[5]⟩ } :=
  (revote_until_update_applied (fun _ _ _ => true)
    (BridgeAuthorityState.new ⟨[9]⟩ (fun _ => ⟨[5]⟩) ⟨[]⟩ 16
      (fun _ => .ok true))
    ⟨⟨⟨0⟩, ⟨0⟩, ⟨[0]⟩, ⟨[0]⟩, 0, ⟨[0]⟩, ⟨[0]⟩, ⟨[0]⟩, 0⟩, ⟨[]⟩⟩ 0
    { value := ⟨⟨⟨0⟩, ⟨0⟩, ⟨[0]⟩, ⟨[0]⟩, 0, ⟨[0]⟩, ⟨[0]⟩, ⟨[0]⟩, 0⟩, ⟨[]⟩⟩
      authority := ⟨[9]⟩
      signature := ⟨[5]⟩ } [] (by decide)).2 rfl

/-! ### Strong-majority lower bound lemmas (C9) -/

theorem strongMajorityScan_cons {V : Type} [Inhabited V] (c : Committee)
    (sc : Nat) (p : AuthorityName × V) (rest : List (AuthorityName × V)) :
    strongMajorityScan c sc (p :: rest) =
      if c.quorum_threshold ≤ sc + c.weight p.1 then p.2
      else strongMajorityScan c (sc + c.weight p.1) rest := by
  obtain ⟨name, value⟩ := p
  rfl

/-- The scan either falls off the end with total weight below quorum, or
returns the value of the first element at which the running score
reaches quorum. -/
theorem strongMajorityScan_cases {V : Type} [Inhabited V] (c : Committee) :
    ∀ (l : List (AuthorityName × V)) (sc : Nat),
    sc < c.quorum_threshold →
    (strongMajorityScan c sc l = (default : V) ∧
        sc + (l.map (fun p => c.weight p.1)).sum < c.quorum_threshold) ∨
      ∃ pre e suf, l = pre ++ e :: suf ∧
        strongMajorityScan c sc l = e.2 ∧
        sc + (pre.map (fun p => c.weight p.1)).sum < c.quorum_threshold ∧
        c.quorum_threshold ≤
          sc + (pre.map (fun p => c.weight p.1)).sum + c.weight e.1 := by
  intro l
  induction l with
  | nil =>
    intro sc hsc
    left
    exact ⟨rfl, by simpa using hsc⟩
  | cons p rest ih =>
    intro sc hsc
    by_cases hq : c.quorum_threshold ≤ sc + c.weight p.1
    · right
      refine ⟨[], p, rest, rfl, ?_, ?_, ?_⟩
      · rw [strongMajorityScan_cons, if_pos hq]
      · simpa using hsc
      · simpa using hq
    · rcases ih (sc + c.weight p.1) (lt_of_not_le hq) with
        ⟨hd, hlt⟩ | ⟨pre, e, suf, hsplit, hscan, hpre, hcross⟩
      · left
        constructor
        · rw [strongMajorityScan_cons, if_neg hq]
          exact hd
        · rw [List.map_cons, List.sum_cons]
          omega
      · right
        refine ⟨p :: pre, e, suf, by rw [hsplit]; rfl, ?_, ?_, ?_⟩
        · rw [strongMajorityScan_cons, if_neg hq]
          exact hscan
        · rw [List.map_cons, List.sum_cons]
          omega
        · rw [List.map_cons, List.sum_cons]
          omega

theorem sum_map_filter_le {α : Type} (f : α → Nat) (p : α → Bool)
    (l : List α) : ((l.filter p).map f).sum ≤ (l.map f).sum := by
  induction l with
  | nil => simp
  | cons a rest ih =>
    by_cases h : p a = true
    · rw [List.filter_cons_of_pos h, List.map_cons, List.sum_cons,
        List.map_cons, List.sum_cons]
      omega
    · rw [List.filter_cons_of_neg (by simpa using h), List.map_cons,
        List.sum_cons]
      omega

theorem supportWeight_perm {V : Type} [LinearOrder V] (c : Committee)
    {l1 l2 : List (AuthorityName × V)} (h : l1.Perm l2) (v : V) :
    supportWeight c l1 v = supportWeight c l2 v := by
  unfold supportWeight
  exact List.Perm.sum_eq (List.Perm.map _ (List.Perm.filter _ h))

theorem supportWeight_le_total {V : Type} [LinearOrder V] (c : Committee)
    (l : List (AuthorityName × V)) (v : V) :
    supportWeight c l v ≤ (l.map (fun p => c.weight p.1)).sum :=
  sum_map_filter_le _ _ l

/-- On a block of voters all casting at least `e.2`, the support of
`e.2` covers the whole block plus `e` itself. -/
theorem supportWeight_ge_block {V : Type} [LinearOrder V] (c : Committee)
    (pre suf : List (AuthorityName × V)) (e : AuthorityName × V)
    (hpre : ∀ x ∈ pre, e.2 ≤ x.2) :
    (pre.map (fun p => c.weight p.1)).sum + c.weight e.1 ≤
      supportWeight c (pre ++ e :: suf) e.2 := by
  unfold supportWeight
  rw [List.filter_append,
    List.filter_eq_self.2 (by intro x hx; simpa using hpre x hx),
    List.filter_cons_of_pos (by simp), List.map_append, List.sum_append,
    List.map_cons, List.sum_cons]
  omega

/-- A value strictly above `e.2` draws support only from the block
before `e` when everything after `e` casts at most `e.2`. -/
theorem supportWeight_le_block {V : Type} [LinearOrder V] (c : Committee)
    (pre suf : List (AuthorityName × V)) (e : AuthorityName × V) (v : V)
    (hv : ¬ v ≤ e.2) (hsuf : ∀ x ∈ suf, x.2 ≤ e.2) :
    supportWeight c (pre ++ e :: suf) v ≤
      (pre.map (fun p => c.weight p.1)).sum := by
  unfold supportWeight
  rw [List.filter_append]
  have h1 : List.filter (fun p => decide (v ≤ p.2)) (e :: suf) = [] := by
    rw [List.filter_eq_nil_iff]
    intro x hx
    rcases List.mem_cons.1 hx with rfl | hxs
    · simpa using hv
    · simp only [decide_eq_true_eq]
      intro hle
      exact hv (le_trans hle (hsuf x hxs))
  rw [h1, List.append_nil]
  exact sum_map_filter_le _ _ pre

/-- C9: over pairwise-distinct voters, `get_strong_majority_lower_bound`
returns the largest value supported by quorum weight, and the default
value when no value reaches quorum support. -/
theorem strong_majority_lower_bound_spec {V : Type} [LinearOrder V]
    [Inhabited V] (c : Committee) (values : List (AuthorityName × V))
    (hnd : (values.map Prod.fst).Nodup) :
    ((∃ v, c.quorum_threshold ≤ supportWeight c values v) →
      c.quorum_threshold ≤ supportWeight c values
          (c.get_strong_majority_lower_bound values) ∧
        ∀ v, c.quorum_threshold ≤ supportWeight c values v →
          v ≤ c.get_strong_majority_lower_bound values) ∧
    ((∀ v, supportWeight c values v < c.quorum_threshold) →
      c.get_strong_majority_lower_bound values = (default : V)) := by
  have hperm : (List.insertionSort byValDesc values).Perm values :=
    List.perm_insertionSort byValDesc values
  have hsorted : List.Sorted byValDesc (List.insertionSort byValDesc values) :=
    List.sorted_insertionSort byValDesc values
  have hsw : ∀ v, supportWeight c (List.insertionSort byValDesc values) v =
      supportWeight c values v :=
    fun v => supportWeight_perm c hperm v
  have hq0 : 0 < c.quorum_threshold := by
    unfold Committee.quorum_threshold
    omega
  rcases strongMajorityScan_cases c (List.insertionSort byValDesc values) 0
      hq0 with ⟨hscan, htot⟩ | ⟨pre, e, suf, hsplit, hscan, hpre, hcross⟩
  · constructor
    · rintro ⟨v, hv⟩
      exfalso
      have h1 := supportWeight_le_total c
        (List.insertionSort byValDesc values) v
      rw [hsw] at h1
      omega
    · intro _
      show strongMajorityScan c 0 (List.insertionSort byValDesc values) = _
      exact hscan
  · have hR : c.get_strong_majority_lower_bound values = e.2 := hscan
    have hpre2 : ∀ x ∈ pre, e.2 ≤ x.2 := by
      intro x hx
      have := (List.pairwise_append.1 (hsplit ▸ hsorted)).2.2 x hx e
        (List.mem_cons_self _ _)
      exact this
    have hsuf2 : ∀ x ∈ suf, x.2 ≤ e.2 := by
      intro x hx
      have hs2 := (List.pairwise_append.1 (hsplit ▸ hsorted)).2.1
      exact (List.pairwise_cons.1 hs2).1 x hx
    have hgood : c.quorum_threshold ≤ supportWeight c values e.2 := by
      rw [← hsw e.2, hsplit]
      have hge := supportWeight_ge_block c pre suf e hpre2
      omega
    have hmax : ∀ v, c.quorum_threshold ≤ supportWeight c values v →
        v ≤ e.2 := by
      intro v hv
      by_contra hgt
      have hle := supportWeight_le_block c pre suf e v hgt hsuf2
      rw [← hsw v, hsplit] at hv
      omega
    constructor
    · intro _
      rw [hR]
      exact ⟨hgood, hmax⟩
    · intro hall
      exact absurd hgood (not_le.2 (hall e.2))

/-- Witness for C9: a three-member unit-weight committee (quorum 3) with
votes 5, 5, 3 supports 3 with full weight but 5 with only weight 2, so
the bound is 3, the largest quorum-supported value. -/
theorem strong_majority_lower_bound_spec_witness :
    Committee.quorum_threshold ⟨[(⟨[1]⟩, 1), (⟨[2]⟩, 1), (⟨[3]⟩, 1)]⟩ ≤
        supportWeight ⟨[(⟨[1]⟩, 1), (⟨[2]⟩, 1), (⟨[3]⟩, 1)]⟩
          [(⟨[1]⟩, 5), (⟨[2]⟩, 5), (⟨[3]⟩, (3 : Nat))]
          (Committee.get_strong_majority_lower_bound
            ⟨[(⟨[1]⟩, 1), (⟨[2]⟩, 1), (⟨[3]⟩, 1)]⟩
            [(⟨[1]⟩, 5), (⟨[2]⟩, 5), (⟨[3]⟩, (3 : Nat))]) ∧
      ∀ v, Committee.quorum_threshold ⟨[(⟨[1]⟩, 1), (⟨[2]⟩, 1), (⟨[3]⟩, 1)]⟩ ≤
          supportWeight ⟨[(⟨[1]⟩, 1), (⟨[2]⟩, 1), (⟨[3]⟩, 1)]⟩
            [(⟨[1]⟩, 5), (⟨[2]⟩, 5), (⟨[3]⟩, (3 : Nat))] v →
        v ≤ Committee.get_strong_majority_lower_bound
          ⟨[(⟨[1]⟩, 1), (⟨[2]⟩, 1), (⟨[3]⟩, 1)]⟩
          [(⟨[1]⟩, 5), (⟨[2]⟩, 5), (⟨[3]⟩, (3 : Nat))] :=
  (strong_majority_lower_bound_spec ⟨[(⟨[1]⟩, 1), (⟨[2]⟩, 1), (⟨[3]⟩, 1)]⟩
    [(⟨[1]⟩, 5), (⟨[2]⟩, 5), (⟨[3]⟩, (3 : Nat))] (by decide)).1
    ⟨3, by decide⟩

end FastPaytube
